import Mathlib

/-!
Verification of the sudoku solver in `src/solver.py`.

The solver works on a dictionary keyed by the 81 cell labels '11'..'99'
(row digit then column digit, inserted in row-major order).  We embed a
cell as its row-major index `k : ℕ` (`k < 81`), with row `k / 9`, column
`k % 9`.  The lexicographic order of the Python label strings coincides
with the numeric order of these indices.

A cell's dictionary value is a string of distinct digit characters drawn
from '1'..'9' (the remaining candidates).  All string operations the
solver performs are set operations (`set(...)`, set difference,
`''.join`), and the character order of the rebuilt strings depends on
Python's hash seed; we therefore embed a candidate string as a
`Finset ℕ` of digits, and `len` of the string as `Finset.card`.
-/

set_option maxHeartbeats 4000000
set_option maxRecDepth 10000

namespace Solver

/-- External grid: a dense array of integers, row-major list of rows.
Shapes other than 9x9 are representable, as `is_valid_puzzle` must
reject them. -/
abbrev Grid := List (List ℤ)

/-- `self.digits = '123456789'` viewed as the set of candidate digits. -/
def digits : Finset ℕ := {1, 2, 3, 4, 5, 6, 7, 8, 9}

/-- `self.no_solution = np.full((9, 9), -1)`. -/
def no_solution : Grid := List.replicate 9 (List.replicate 9 (-1 : ℤ))

/-- `self.cells`: the 81 cell labels in construction (row-major) order,
embedded as indices `0..80`. -/
def cellsL : List ℕ := List.range 81

/-- One row unit of the `rows` list: the cells of row `r`. -/
def rowUnit (r : ℕ) : List ℕ := (List.range 9).map (fun j => 9 * r + j)

/-- One column unit of the `columns` list: the cells of column `c`. -/
def colUnit (c : ℕ) : List ℕ := (List.range 9).map (fun i => 9 * i + c)

/-- One subgrid unit of the `subgrids` list: box `b` (row groups outer,
column groups inner, as in the Python comprehension). -/
def boxUnit (b : ℕ) : List ℕ :=
  ((List.range 3).map (fun i =>
    (List.range 3).map (fun j => 9 * (3 * (b / 3) + i) + (3 * (b % 3) + j)))).flatten

/-- `rows + columns + subgrids`. -/
def units : List (List ℕ) :=
  (List.range 9).map rowUnit ++ (List.range 9).map colUnit ++ (List.range 9).map boxUnit

/-- `self.neighbours[c] = set(sum(permutations[c], [])) - {c}` where
`permutations[c]` keeps the units containing `c`. -/
def neighbours (c : ℕ) : Finset ℕ :=
  ((units.filter (fun u => decide (c ∈ u))).flatten).toFinset.erase c

/-- Puzzle state: the dictionary mapping each of the 81 cells to its
candidate set, represented by its list of values in key (insertion,
i.e. row-major) order. -/
abbrev SState := List (Finset ℕ)

/-- `sudoku[k]`: the dictionary value of cell `k`. -/
def get (s : SState) (k : ℕ) : Finset ℕ := s.getD k ∅

/-- `to_dictionary(numpy_array, '0')`: a clue keeps its digit as a
singleton, an empty cell (entry 0, i.e. `str(value) == '0'`) gets the
full digit set.  `solve` only calls this after `is_valid_puzzle`, so
the entry is in `[0, 9]`. -/
def to_dictionary (g : Grid) : SState :=
  cellsL.map (fun k =>
    let v := (g.getD (k / 9) []).getD (k % 9) 0
    if v = 0 then digits else {v.toNat})

/-- Number of solved cells:
`len([c for c in sudoku.keys() if len(sudoku[c]) == 1])`. -/
def solvedCount (s : SState) : ℕ := cellsL.countP (fun c => (get s c).card == 1)

/-- `len([c for c in sudoku.keys() if len(sudoku[c]) == 0])` made into the
boolean test Python applies to it. -/
def anyEmpty (s : SState) : Bool := cellsL.countP (fun c => (get s c).card == 0) != 0

/-- `all(len(value) == 1 for key, value in sudoku.items())`. -/
def allSolved (s : SState) : Bool := cellsL.all (fun c => (get s c).card == 1)

/-- The digits taken by solved neighbours of `key`:
`solved_neighbours = set([sudoku[k] for k in self.neighbours[key] if len(sudoku[k]) == 1])`
(a set of one-character strings, i.e. a set of digits). -/
def solvedNeighbourDigits (s : SState) (k : ℕ) : Finset ℕ :=
  ((neighbours k).filter (fun j => (get s j).card = 1)).biUnion (get s)

/-- The body of the elimination pass for one dictionary entry: an
unsolved cell is rewritten to `set(sudoku[key]) - solved_neighbours`,
a solved cell is left alone. -/
def elimStep (s : SState) (k : ℕ) : SState :=
  if (get s k).card ≠ 1 then s.set k (get s k \ solvedNeighbourDigits s k) else s

/-- One full `for key, value in sudoku.items():` elimination pass, in
dictionary insertion order with in-place updates (later cells see the
earlier cells' new values). -/
def elimPass (s : SState) : SState := cellsL.foldl elimStep s

/-- Outcome of the `while True:` loop in `propagate`. -/
inductive LoopResult where
  | contradiction
  | stalled (s : SState)
  | fuelExhausted

/-- The `while True:` loop of `propagate`, with explicit fuel.  Each
iteration runs a pass; if the solved count did not change the loop
breaks with the new state; otherwise, if some cell is now empty it
returns `False`; otherwise it iterates.  The solved count strictly
increases on every iteration that continues, so fuel `82` always
suffices (`fixloop_no_fuelExhausted` below). -/
def fixloop : ℕ → SState → LoopResult
  | 0, _ => .fuelExhausted
  | n + 1, s =>
    if solvedCount s = solvedCount (elimPass s) then .stalled (elimPass s)
    else if anyEmpty (elimPass s) then .contradiction
    else fixloop n (elimPass s)

/-- The Python exceptions the solver can actually raise. -/
inductive PyExc where
  | attributeError
  | valueError
  deriving DecidableEq

/-- Result of `propagate`: `failure` covers both `return False` and
falling off the end (`return None`) — the callers only test
truthiness, and a dictionary is truthy, so these two are the same
observable. -/
inductive PropResult where
  | failure
  | ok (s : SState)
  | exc (e : PyExc)
  deriving DecidableEq

/-- `True` exactly on the `failure` outcome. -/
def PropResult.isFailure : PropResult → Bool
  | .failure => true
  | _ => false

/-- The raised exception, if any. -/
def PropResult.excOf : PropResult → Option PyExc
  | .exc e => some e
  | _ => none

/-- Python tuple comparison `(len, key) < (len, key)` on the pairs fed
to `min`. -/
def tupleLt (p q : ℕ × ℕ) : Bool := p.1 < q.1 || (p.1 == q.1 && p.2 < q.2)

/-- One comparison step of Python's `min`: keep the current best unless
the new element is strictly smaller. -/
def minPair (p q : ℕ × ℕ) : ℕ × ℕ := if tupleLt q p then q else p

/-- `min((len(value), key) for key, value in sudoku.items() if len(value) > 1)`:
`none` models the `ValueError` Python's `min` raises on an empty
generator. -/
def minCellPair (s : SState) : Option (ℕ × ℕ) :=
  match (cellsL.filter (fun c => 1 < (get s c).card)).map (fun c => ((get s c).card, c)) with
  | [] => none
  | p :: ps => some (ps.foldl minPair p)

/-- `propagate(sudoku)`.  After the fixpoint loop: if every cell is
solved the state is returned; otherwise the guess step runs.  The guess
step picks `min_key` via `min`, then executes
`next_solve = self.solve(next_state)` on a *dictionary* copy — but
`solve` immediately calls `is_valid_puzzle`, which evaluates
`sudoku.shape`, and a `dict` has no attribute `shape`, so the very
first loop iteration raises `AttributeError` (each candidate digit of
`min_key` would behave identically, so the exception is raised no
matter which digit is tried first).  If no cell has more than one
candidate while not all are solved, `min` itself raises `ValueError`
on an empty sequence. -/
def propagate (s : SState) : PropResult :=
  match fixloop 82 s with
  | .fuelExhausted => .failure  -- unreachable, see fixloop_no_fuelExhausted
  | .contradiction => .failure
  | .stalled s' =>
    if allSolved s' then .ok s'
    else
      match minCellPair s' with
      | none => .exc .valueError
      | some _ => .exc .attributeError

/-- A value held by the Python dictionary passed to `to_numpy_array`: a
candidate string or, after the in-place conversion, an integer. -/
inductive DictVal where
  | vstr (t : Finset ℕ)
  | vint (n : ℤ)
  deriving DecidableEq

/-- `int(value)` on a candidate string.  Candidate sets are always
subsets of the digits 1..9, so filtering `List.range 10` lists the
digits in ascending order.  The character order of a multi-digit
candidate string is hash-dependent in Python; this embedding reads the
digits in ascending order.  `solve` only converts fully solved
dictionaries, whose values are one-character strings, where any order
choice agrees with Python. -/
def strToInt (t : Finset ℕ) : ℤ :=
  ((List.range 10).filter (fun d => decide (d ∈ t))).foldl (fun a d => 10 * a + (d : ℤ)) 0

/-- `int(value)` on either kind of dictionary value. -/
def DictVal.toIntVal : DictVal → ℤ
  | .vstr t => strToInt t
  | .vint n => n

/-- One step of the in-place loop
`for key, value in dictionary.items(): dictionary[key] = int(value)`:
the entry at key `k` is replaced by its integer conversion. -/
def intConvStep (acc : List DictVal) (k : ℕ) : List DictVal :=
  acc.modify (fun v => .vint v.toIntVal) k

/-- The dictionary after the in-place conversion loop of
`to_numpy_array` has run over the 81 keys. -/
def convDict (d : List DictVal) : List DictVal := cellsL.foldl intConvStep d

/-- `to_numpy_array(dictionary)`: first the in-place conversion loop
over the 81 keys, then
`np.array(list(dictionary.values())).reshape((9, 9))` (values in
insertion, i.e. row-major, order).  The embedding returns both the
mutated dictionary and the produced array. -/
def to_numpy_array (d : List DictVal) : List DictVal × Grid :=
  (convDict d, (List.range 9).map (fun i =>
    (List.range 9).map (fun j => ((convDict d).getD (9 * i + j) (.vint 0)).toIntVal)))

/-- `is_valid_puzzle(sudoku)`: shape is exactly 9x9 and every entry is
in `[0, 9]`. -/
def is_valid_puzzle (g : Grid) : Bool :=
  (g.length == 9 && g.all (fun r => r.length == 9)) &&
    g.all (fun r => r.all (fun v => 0 ≤ v && v ≤ 9))

/-- `is_valid_solution(sudoku)`:
`np.sum(np.sum(sudoku, axis=0)) == 9 * 45` — the nine column sums,
summed. -/
def is_valid_solution (g : Grid) : Bool :=
  ((List.range 9).map (fun j => (g.map (fun r => r.getD j 0)).sum)).sum == 9 * 45

/-- Result of `solve`: a returned grid, or an uncaught exception. -/
inductive SolveResult where
  | grid (g : Grid)
  | raise (e : PyExc)
  deriving DecidableEq

/-- `solve(sudoku)`: validate, decode, propagate, encode, sum-check.
An exception raised inside `propagate` propagates out uncaught. -/
def solve (g : Grid) : SolveResult :=
  if ¬ is_valid_puzzle g then .grid no_solution
  else
    match propagate (to_dictionary g) with
    | .failure => .grid no_solution
    | .exc e => .raise e
    | .ok s =>
      let a := (to_numpy_array (s.map .vstr)).2
      if ¬ is_valid_solution a then .grid no_solution else .grid a

end Solver

/-! ## Spec-side notions, used to state the claims -/

/-- Row index of cell `k` (the spec's "pair (row 0-8, column 0-8)"). -/
def cellRow (k : ℕ) : ℕ := k / 9

/-- Column index of cell `k`. -/
def cellCol (k : ℕ) : ℕ := k % 9

/-- The spec's characterisation of the neighbour relation: the other
cells sharing the row, the column, or the 3x3 box (box index =
(row / 3, col / 3)). -/
def expectedNeighbours (c : ℕ) : Finset ℕ :=
  (Finset.range 81).filter (fun d =>
    d ≠ c ∧ (cellRow d = cellRow c ∨ cellCol d = cellCol c ∨
      (cellRow d / 3 = cellRow c / 3 ∧ cellCol d / 3 = cellCol c / 3)))

/-- A grid has shape exactly 9x9. -/
def shape9 (g : Solver.Grid) : Prop := g.length = 9 ∧ ∀ r ∈ g, r.length = 9

instance : DecidablePred shape9 := fun g => by unfold shape9; infer_instance

/-- The sum of all entries of a grid. -/
def gridTotal (g : Solver.Grid) : ℤ := (g.map List.sum).sum

/-- An entry of a grid, by row and column. -/
def entryAt (g : Solver.Grid) (i j : ℕ) : ℤ := (g.getD i []).getD j 0

/-- The rows of a grid. -/
def rowsOf (g : Solver.Grid) : List (List ℤ) := g

/-- The nine columns of a grid. -/
def colsOf (g : Solver.Grid) : List (List ℤ) :=
  (List.range 9).map (fun j => g.map (fun r => r.getD j 0))

/-- The nine 3x3 boxes of a grid, each flattened to a list. -/
def boxesOf (g : Solver.Grid) : List (List ℤ) :=
  (List.range 9).map (fun b =>
    (List.range 9).map (fun i => entryAt g (3 * (b / 3) + i / 3) (3 * (b % 3) + i % 3)))

/-- The digits 1 to 9, as the multiset a solved unit must carry. -/
def oneToNine : Multiset ℤ := {1, 2, 3, 4, 5, 6, 7, 8, 9}

/-- A true sudoku solution: 9x9, and every row, column and box contains
each of 1-9 exactly once. -/
def isSudokuSolution (g : Solver.Grid) : Prop :=
  shape9 g ∧ ∀ u ∈ rowsOf g ++ colsOf g ++ boxesOf g, (u : Multiset ℤ) = oneToNine

instance : DecidablePred isSudokuSolution := fun g => by
  unfold isSudokuSolution; infer_instance

/-- A grid contains an entry outside `[0, 9]`. -/
def hasBadEntry (g : Solver.Grid) : Prop := ∃ r ∈ g, ∃ v ∈ r, v < 0 ∨ 9 < v

instance : DecidablePred hasBadEntry := fun g => by unfold hasBadEntry; infer_instance

/-! ## Concrete grids used as witnesses and counterexamples -/

/-- The all-zero (all-empty) puzzle. -/
def zerosGrid : Solver.Grid := List.replicate 9 (List.replicate 9 (0 : ℤ))

/-- A fully solved, fully valid sudoku grid. -/
def solvedGrid : Solver.Grid :=
  [[1, 2, 3, 4, 5, 6, 7, 8, 9],
   [4, 5, 6, 7, 8, 9, 1, 2, 3],
   [7, 8, 9, 1, 2, 3, 4, 5, 6],
   [2, 3, 4, 5, 6, 7, 8, 9, 1],
   [5, 6, 7, 8, 9, 1, 2, 3, 4],
   [8, 9, 1, 2, 3, 4, 5, 6, 7],
   [3, 4, 5, 6, 7, 8, 9, 1, 2],
   [6, 7, 8, 9, 1, 2, 3, 4, 5],
   [9, 1, 2, 3, 4, 5, 6, 7, 8]]

/-- `solvedGrid` with the entries at (0,0) and (1,0) swapped: same total
sum, every cell filled with a digit, but row 0 now holds two 4s and
row 1 two 1s — not a sudoku solution. -/
def badFull : Solver.Grid :=
  [[4, 2, 3, 4, 5, 6, 7, 8, 9],
   [1, 5, 6, 7, 8, 9, 1, 2, 3],
   [7, 8, 9, 1, 2, 3, 4, 5, 6],
   [2, 3, 4, 5, 6, 7, 8, 9, 1],
   [5, 6, 7, 8, 9, 1, 2, 3, 4],
   [8, 9, 1, 2, 3, 4, 5, 6, 7],
   [3, 4, 5, 6, 7, 8, 9, 1, 2],
   [6, 7, 8, 9, 1, 2, 3, 4, 5],
   [9, 1, 2, 3, 4, 5, 6, 7, 8]]

/-- All cells 5: total sum `81 * 5 = 405`, yet no row, column or box is
valid. -/
def allFives : Solver.Grid := List.replicate 9 (List.replicate 9 (5 : ℤ))

/-- Row 0 holds clues 1..8 with its last cell empty, and a 9 sits at the
bottom of column 8.  The first elimination pass strips all nine digits
from cell (0,8) — a contradiction — while solving no new cell, so the
loop's solved count does not change. -/
def staleContraGrid : Solver.Grid :=
  [[1, 2, 3, 4, 5, 6, 7, 8, 0],
   [0, 0, 0, 0, 0, 0, 0, 0, 0],
   [0, 0, 0, 0, 0, 0, 0, 0, 0],
   [0, 0, 0, 0, 0, 0, 0, 0, 0],
   [0, 0, 0, 0, 0, 0, 0, 0, 0],
   [0, 0, 0, 0, 0, 0, 0, 0, 0],
   [0, 0, 0, 0, 0, 0, 0, 0, 0],
   [0, 0, 0, 0, 0, 0, 0, 0, 0],
   [0, 0, 0, 0, 0, 0, 0, 0, 9]]

/-- A dictionary of candidate strings, as `solve` passes to
`to_numpy_array`. -/
def strDict : List Solver.DictVal := List.replicate 81 (Solver.DictVal.vstr Solver.digits)

/-- Like `staleContraGrid`, but row 7 holds clues 9,8,..,2 so that the
same pass that empties cell (0,8) also solves cell (7,8) (forced to 1),
increasing the solved count. -/
def growContraGrid : Solver.Grid :=
  [[1, 2, 3, 4, 5, 6, 7, 8, 0],
   [0, 0, 0, 0, 0, 0, 0, 0, 0],
   [0, 0, 0, 0, 0, 0, 0, 0, 0],
   [0, 0, 0, 0, 0, 0, 0, 0, 0],
   [0, 0, 0, 0, 0, 0, 0, 0, 0],
   [0, 0, 0, 0, 0, 0, 0, 0, 0],
   [0, 0, 0, 0, 0, 0, 0, 0, 0],
   [9, 8, 7, 6, 5, 4, 3, 2, 0],
   [0, 0, 0, 0, 0, 0, 0, 0, 9]]

/-- The non-strict lexicographic order on the `(len, key)` pairs that
Python's `min` compares. -/
def lexLe (p q : ℕ × ℕ) : Prop := p.1 < q.1 ∨ (p.1 = q.1 ∧ p.2 ≤ q.2)

/-! ## Lemmas about the elimination pass and the fixpoint loop -/

namespace Solver

theorem get_set_ne (s : SState) (k j : ℕ) (v : Finset ℕ) (h : k ≠ j) :
    get (s.set k v) j = get s j := by
  simp [get, List.getD_eq_getElem?_getD, List.getElem?_set_ne h]

/-- A solved cell is left untouched by the elimination body for any key. -/
theorem get_elimStep_of_solved {s : SState} {j : ℕ} (k : ℕ)
    (h : (get s j).card = 1) : get (elimStep s k) j = get s j := by
  unfold elimStep
  split
  · rename_i hk
    exact get_set_ne s k j _ (fun he => hk (he ▸ h))
  · rfl

/-- A solved cell is left untouched by a whole elimination pass. -/
theorem get_foldl_elimStep_of_solved (l : List ℕ) (s : SState) (j : ℕ)
    (h : (get s j).card = 1) : get (l.foldl elimStep s) j = get s j := by
  induction l generalizing s with
  | nil => rfl
  | cons c cs ih =>
    have h1 : get (elimStep s c) j = get s j := get_elimStep_of_solved c h
    simp only [List.foldl_cons]
    rw [ih (elimStep s c) (by rw [h1]; exact h), h1]

theorem get_elimPass_of_solved (s : SState) (j : ℕ) (h : (get s j).card = 1) :
    get (elimPass s) j = get s j :=
  get_foldl_elimStep_of_solved cellsL s j h

/-- An elimination pass never unsolves a solved cell, so the solved
count is monotone. -/
theorem solvedCount_le_elimPass (s : SState) :
    solvedCount s ≤ solvedCount (elimPass s) := by
  apply List.countP_mono_left
  intro c _ hc
  simp only [beq_iff_eq] at hc ⊢
  rw [get_elimPass_of_solved s c hc]
  exact hc

theorem solvedCount_le_81 (s : SState) : solvedCount s ≤ 81 := by
  have h := List.countP_le_length (p := fun c => (get s c).card == 1) (l := cellsL)
  simpa [cellsL] using h

/-- Fuel 82 is always enough for the fixpoint loop: every iteration that
continues strictly increases the solved count, which is at most 81. -/
theorem fixloop_no_fuelExhausted :
    ∀ (n : ℕ) (s : SState), 82 ≤ n + solvedCount s →
      fixloop n s ≠ .fuelExhausted := by
  intro n
  induction n with
  | zero =>
    intro s h
    have := solvedCount_le_81 s
    omega
  | succ n ih =>
    intro s h
    rw [fixloop]
    split
    · intro hc; cases hc
    · split
      · intro hc; cases hc
      · rename_i hne _
        apply ih
        have hlt : solvedCount s < solvedCount (elimPass s) :=
          lt_of_le_of_ne (solvedCount_le_elimPass s) hne
        omega

theorem fixloop_succ_stall {s : SState} (n : ℕ)
    (h : solvedCount s = solvedCount (elimPass s)) :
    fixloop (n + 1) s = .stalled (elimPass s) := by
  rw [fixloop, if_pos h]

theorem fixloop_succ_contra {s : SState} (n : ℕ)
    (hne : solvedCount s ≠ solvedCount (elimPass s))
    (hae : anyEmpty (elimPass s) = true) :
    fixloop (n + 1) s = .contradiction := by
  rw [fixloop, if_neg hne, if_pos hae]

theorem allSolved_iff {s : SState} :
    allSolved s = true ↔ ∀ c ∈ cellsL, (get s c).card = 1 := by
  simp [allSolved]

theorem anyEmpty_iff {s : SState} :
    anyEmpty s = true ↔ ∃ c ∈ cellsL, (get s c).card = 0 := by
  rw [anyEmpty, bne_iff_ne, ← Nat.pos_iff_ne_zero, List.countP_pos_iff]
  simp

/-- A contradicted cell is in particular unsolved. -/
theorem allSolved_eq_false_of_anyEmpty {s : SState} (h : anyEmpty s = true) :
    allSolved s = false := by
  rcases anyEmpty_iff.mp h with ⟨c, hc, h0⟩
  cases hall : allSolved s with
  | false => rfl
  | true =>
    have := allSolved_iff.mp hall c hc
    rw [h0] at this
    cases this

/-- A pass that empties a cell while changing the solved count makes
`propagate` return `False`. -/
theorem propagate_contra_of_grow {s : SState}
    (hne : solvedCount s ≠ solvedCount (elimPass s))
    (hae : anyEmpty (elimPass s) = true) :
    propagate s = .failure := by
  unfold propagate
  have h82 : fixloop 82 s = fixloop (81 + 1) s := rfl
  rw [h82, fixloop_succ_contra 81 hne hae]

/-- A pass that empties a cell while leaving the solved count unchanged
breaks out of the loop before the contradiction check: `propagate`
does not report failure but moves on to the guess step. -/
theorem propagate_not_failure_of_stall {s : SState}
    (heq : solvedCount s = solvedCount (elimPass s))
    (hae : anyEmpty (elimPass s) = true) :
    (propagate s).isFailure = false := by
  unfold propagate
  have h82 : fixloop 82 s = fixloop (81 + 1) s := rfl
  rw [h82, fixloop_succ_stall 81 heq]
  dsimp only
  rw [allSolved_eq_false_of_anyEmpty hae]
  cases h : minCellPair (elimPass s) <;> simp [h, PropResult.isFailure]

end Solver

/-! ## Lemmas about already-solved states and the codec -/

namespace Solver

theorem elimStep_of_solved_self {s : SState} {k : ℕ} (h : (get s k).card = 1) :
    elimStep s k = s := by
  unfold elimStep
  rw [if_neg (by simp [h])]

theorem foldl_elimStep_of_allSolved (l : List ℕ) (s : SState)
    (h : ∀ k ∈ l, (get s k).card = 1) : l.foldl elimStep s = s := by
  induction l with
  | nil => rfl
  | cons c cs ih =>
    simp only [List.foldl_cons]
    rw [elimStep_of_solved_self (h c (by simp))]
    exact ih (fun k hk => h k (by simp [hk]))

/-- On a fully solved state an elimination pass does nothing at all. -/
theorem elimPass_of_allSolved {s : SState} (h : ∀ k ∈ cellsL, (get s k).card = 1) :
    elimPass s = s :=
  foldl_elimStep_of_allSolved cellsL s h

theorem length_to_dictionary (g : Grid) : (to_dictionary g).length = 81 := by
  simp [to_dictionary, cellsL]

theorem get_to_dictionary (g : Grid) {k : ℕ} (hk : k < 81) :
    get (to_dictionary g) k =
      (if (g.getD (k / 9) []).getD (k % 9) 0 = 0 then digits
       else {((g.getD (k / 9) []).getD (k % 9) 0).toNat}) := by
  unfold to_dictionary get cellsL
  rw [List.getD_eq_getElem?_getD, List.getElem?_map]
  simp [List.getElem?_range, hk]

end Solver

/-! ## Sum lemmas for the weak solution check -/

theorem listRangeMapSum (n : ℕ) (f : ℕ → ℤ) :
    ((List.range n).map f).sum = ∑ i in Finset.range n, f i := by
  induction n with
  | zero => simp
  | succ n ih =>
    rw [List.range_succ, List.map_append, List.sum_append, Finset.sum_range_succ, ih]
    simp

theorem getDSumRow (r : List ℤ) :
    ∑ j in Finset.range r.length, r.getD j 0 = r.sum := by
  induction r with
  | nil => simp
  | cons a r ih =>
    rw [List.length_cons, Finset.sum_range_succ']
    simp only [List.getD_cons_succ, List.getD_cons_zero, List.sum_cons]
    rw [ih]
    ring

theorem colSumsF_eq_total (g : Solver.Grid) (h9 : ∀ r ∈ g, r.length = 9) :
    (∑ j in Finset.range 9, (g.map (fun r => r.getD j 0)).sum) = gridTotal g := by
  induction g with
  | nil => simp [gridTotal]
  | cons r g ih =>
    have hr : r.length = 9 := h9 r (by simp)
    have ihg := ih (fun t ht => h9 t (by simp [ht]))
    simp only [List.map_cons, List.sum_cons, gridTotal] at ihg ⊢
    rw [Finset.sum_add_distrib, ihg, ← hr, getDSumRow r]

/-- On any grid whose rows have length 9 (in particular any 9x9 grid),
the solver's column-summing check compares the total of all entries
with 405. -/
theorem is_valid_solution_iff_total {g : Solver.Grid} (h9 : ∀ r ∈ g, r.length = 9) :
    Solver.is_valid_solution g = true ↔ gridTotal g = 405 := by
  unfold Solver.is_valid_solution
  rw [beq_iff_eq, listRangeMapSum, colSumsF_eq_total g h9]
  norm_num

theorem sum_eq_45_of_unit {u : List ℤ} (h : (u : Multiset ℤ) = oneToNine) :
    u.sum = 45 := by
  have hs : (u : Multiset ℤ).sum = oneToNine.sum := by rw [h]
  have h45 : oneToNine.sum = 45 := by decide
  rw [h45] at hs
  simpa using hs

theorem mem_oneToNine_bounds {v : ℤ} (h : v ∈ oneToNine) : 1 ≤ v ∧ v ≤ 9 := by
  simp only [oneToNine, Multiset.insert_eq_cons, Multiset.mem_cons, Multiset.mem_singleton] at h
  omega

/-- A true sudoku solution passes the weak sum check. -/
theorem is_valid_solution_of_sudoku {g : Solver.Grid} (h : isSudokuSolution g) :
    Solver.is_valid_solution g = true := by
  obtain ⟨⟨hl, h9⟩, hu⟩ := h
  unfold Solver.is_valid_solution
  rw [beq_iff_eq, listRangeMapSum]
  have hcol : ∀ j ∈ Finset.range 9, (g.map (fun r => r.getD j 0)).sum = 45 := by
    intro j hj
    apply sum_eq_45_of_unit
    apply hu
    rw [List.append_assoc, List.mem_append]
    right
    rw [List.mem_append]
    left
    exact List.mem_map.mpr ⟨j, List.mem_range.mpr (Finset.mem_range.mp hj), rfl⟩
  rw [Finset.sum_congr rfl hcol]
  simp

/-! ## A solved grid decodes to an all-singleton state and re-encodes to itself -/

theorem entry_mem_oneToNine {g : Solver.Grid} (h : isSudokuSolution g) {i j : ℕ}
    (hi : i < 9) (hj : j < 9) : entryAt g i j ∈ oneToNine := by
  obtain ⟨⟨hl, h9⟩, hu⟩ := h
  have hil : i < g.length := by omega
  have hrow : g.getD i [] = g[i] := by
    rw [List.getD_eq_getElem?_getD, List.getElem?_eq_getElem hil]
    rfl
  have hjl : j < g[i].length := by
    rw [h9 g[i] (List.getElem_mem hil)]
    omega
  have hv : entryAt g i j = g[i][j] := by
    rw [entryAt, hrow, List.getD_eq_getElem?_getD, List.getElem?_eq_getElem hjl]
    rfl
  have hmem : g[i][j] ∈ g[i] := List.getElem_mem hjl
  have hrowms : (g[i] : Multiset ℤ) = oneToNine := by
    apply hu
    rw [List.mem_append]
    left
    rw [List.mem_append]
    left
    exact List.getElem_mem hil
  rw [hv, ← hrowms]
  exact_mod_cast hmem

theorem entry_bounds {g : Solver.Grid} (h : isSudokuSolution g) {i j : ℕ}
    (hi : i < 9) (hj : j < 9) : 1 ≤ entryAt g i j ∧ entryAt g i j ≤ 9 :=
  mem_oneToNine_bounds (entry_mem_oneToNine h hi hj)

/-- A true sudoku solution is a valid puzzle (9x9, entries in range). -/
theorem is_valid_puzzle_of_sudoku {g : Solver.Grid} (h : isSudokuSolution g) :
    Solver.is_valid_puzzle g = true := by
  obtain ⟨⟨hl, h9⟩, hu⟩ := h
  unfold Solver.is_valid_puzzle
  simp only [Bool.and_eq_true, List.all_eq_true, beq_iff_eq, decide_eq_true_eq]
  refine ⟨⟨hl, fun r hr => h9 r hr⟩, fun r hr v hv => ?_⟩
  have hrm : (r : Multiset ℤ) = oneToNine := by
    apply hu
    rw [List.mem_append]
    left
    rw [List.mem_append]
    left
    exact hr
  have hvm : v ∈ oneToNine := by
    rw [← hrm]
    exact_mod_cast hv
  have := mem_oneToNine_bounds hvm
  omega

theorem get_to_dictionary_of_sudoku {g : Solver.Grid} (h : isSudokuSolution g)
    {k : ℕ} (hk : k < 81) :
    Solver.get (Solver.to_dictionary g) k = {(entryAt g (k / 9) (k % 9)).toNat} := by
  have hi : k / 9 < 9 := Nat.div_lt_of_lt_mul (by omega)
  have hj : k % 9 < 9 := Nat.mod_lt _ (by norm_num)
  have hb := entry_bounds h hi hj
  rw [Solver.get_to_dictionary g hk]
  rw [if_neg (by unfold entryAt at hb; omega)]
  rfl

theorem strToInt_singleton {n : ℕ} (hn : n < 10) : Solver.strToInt {n} = (n : ℤ) := by
  unfold Solver.strToInt
  interval_cases n <;> decide

namespace Solver

theorem foldl_intConvStep_not_mem (l : List ℕ) (d : List DictVal) (k : ℕ) (hk : k ∉ l) :
    (l.foldl intConvStep d).getD k (.vint 0) = d.getD k (.vint 0) := by
  induction l generalizing d with
  | nil => rfl
  | cons c cs ih =>
    simp only [List.foldl_cons]
    rw [ih _ (fun h => hk (List.mem_cons_of_mem _ h))]
    have hck : c ≠ k := fun he => hk (he ▸ List.mem_cons_self c cs)
    simp [intConvStep, List.getD_eq_getElem?_getD, List.getElem?_modify, hck]

theorem foldl_intConvStep_mem (l : List ℕ) (d : List DictVal) (k : ℕ)
    (hnd : l.Nodup) (hk : k ∈ l) (hlen : k < d.length) :
    (l.foldl intConvStep d).getD k (.vint 0) = .vint ((d.getD k (.vint 0)).toIntVal) := by
  induction l generalizing d with
  | nil => cases hk
  | cons c cs ih =>
    simp only [List.foldl_cons]
    rcases List.mem_cons.mp hk with he | hm
    · subst he
      have hknotcs : k ∉ cs := (List.nodup_cons.mp hnd).1
      rw [foldl_intConvStep_not_mem cs _ k hknotcs]
      simp [intConvStep, List.getD_eq_getElem?_getD, List.getElem?_modify_eq,
        List.getElem?_eq_getElem hlen]
    · have hne : c ≠ k := by
        rintro rfl
        exact (List.nodup_cons.mp hnd).1 hm
      rw [ih _ (List.nodup_cons.mp hnd).2 hm (by simp [intConvStep, hlen])]
      have hgd : (intConvStep d c).getD k (.vint 0) = d.getD k (.vint 0) := by
        simp [intConvStep, List.getD_eq_getElem?_getD, List.getElem?_modify, hne]
      rw [hgd]

/-- The converted dictionary holds, at every key, the integer conversion
of the original value. -/
theorem to_numpy_array_fst_getD (d : List DictVal) (hlen : d.length = 81)
    {k : ℕ} (hk : k < 81) :
    (to_numpy_array d).1.getD k (.vint 0) = .vint ((d.getD k (.vint 0)).toIntVal) := by
  rw [to_numpy_array]
  dsimp only
  rw [convDict]
  exact foldl_intConvStep_mem cellsL d k (by unfold cellsL; exact List.nodup_range 81)
    (by simpa [cellsL] using hk) (by omega)

theorem getD_map_vstr (s : SState) {k : ℕ} (hk : k < s.length) :
    (s.map DictVal.vstr).getD k (.vint 0) = .vstr (get s k) := by
  unfold get
  rw [List.getD_eq_getElem?_getD, List.getD_eq_getElem?_getD, List.getElem?_map,
      List.getElem?_eq_getElem hk]
  rfl

end Solver

/-! ## The converted dictionary and the encoded grid -/

namespace Solver

theorem convDict_getD (d : List DictVal) (hlen : d.length = 81) {k : ℕ} (hk : k < 81) :
    (convDict d).getD k (.vint 0) = .vint ((d.getD k (.vint 0)).toIntVal) := by
  rw [convDict]
  exact foldl_intConvStep_mem cellsL d k (by unfold cellsL; exact List.nodup_range 81)
    (by simpa [cellsL] using hk) (by omega)

/-- After the fixpoint loop on a fully solved state, `propagate`
returns that state. -/
theorem propagate_of_allSolved {s : SState} (h : ∀ k ∈ cellsL, (get s k).card = 1) :
    propagate s = .ok s := by
  have hpass : elimPass s = s := elimPass_of_allSolved h
  unfold propagate
  have h82 : fixloop 82 s = fixloop (81 + 1) s := rfl
  rw [h82, fixloop_succ_stall 81 (by rw [hpass])]
  dsimp only
  rw [hpass, if_pos (allSolved_iff.mpr h)]

end Solver

theorem entryAt_eq_getElem {g : Solver.Grid} {i j : ℕ}
    (hgi : i < g.length) (hgj : j < g[i].length) :
    entryAt g i j = g[i][j] := by
  unfold entryAt
  have h1 : g.getD i [] = g[i] := by
    rw [List.getD_eq_getElem?_getD, List.getElem?_eq_getElem hgi]
    rfl
  rw [h1, List.getD_eq_getElem?_getD, List.getElem?_eq_getElem hgj]
  rfl

/-- Re-encoding the decoded dictionary of a solved grid yields the grid
back. -/
theorem to_numpy_array_snd_of_sudoku {g : Solver.Grid} (h : isSudokuSolution g) :
    (Solver.to_numpy_array ((Solver.to_dictionary g).map Solver.DictVal.vstr)).2 = g := by
  have hl : g.length = 9 := h.1.1
  have h9 : ∀ r ∈ g, r.length = 9 := h.1.2
  have hlen : ((Solver.to_dictionary g).map Solver.DictVal.vstr).length = 81 := by
    simp [Solver.length_to_dictionary]
  rw [Solver.to_numpy_array]
  dsimp only
  apply List.ext_getElem
  · simp [hl]
  · intro i hi1 hi2
    have hi : i < 9 := by simpa using hi1
    rw [List.getElem_map, List.getElem_range]
    apply List.ext_getElem
    · have := h9 g[i] (List.getElem_mem hi2)
      simp [this]
    · intro j hj1 hj2
      have hj : j < 9 := by simpa using hj1
      rw [List.getElem_map, List.getElem_range]
      have hk81 : 9 * i + j < 81 := by omega
      rw [Solver.convDict_getD _ hlen hk81]
      rw [Solver.getD_map_vstr _ (by rw [Solver.length_to_dictionary]; omega)]
      rw [get_to_dictionary_of_sudoku h hk81]
      have hdiv : (9 * i + j) / 9 = i := by omega
      have hmod : (9 * i + j) % 9 = j := by omega
      rw [hdiv, hmod]
      have hb := entry_bounds h hi hj
      simp only [Solver.DictVal.toIntVal]
      rw [strToInt_singleton (by omega), Int.toNat_of_nonneg (by omega)]
      exact entryAt_eq_getElem hi2 hj2

/-! ## Lemmas about the `min` fold of the guess step -/

namespace Solver

theorem lexLe_refl (p : ℕ × ℕ) : lexLe p p := by
  unfold lexLe
  omega

theorem lexLe_trans {p q r : ℕ × ℕ} (h1 : lexLe p q) (h2 : lexLe q r) : lexLe p r := by
  unfold lexLe at h1 h2 ⊢
  omega

theorem minPair_cases (p q : ℕ × ℕ) : minPair p q = p ∨ minPair p q = q := by
  unfold minPair
  split
  · right; rfl
  · left; rfl

theorem lexLe_minPair_left (p q : ℕ × ℕ) : lexLe (minPair p q) p := by
  unfold minPair
  split
  · rename_i h
    simp only [tupleLt, Bool.or_eq_true, Bool.and_eq_true, decide_eq_true_eq,
      beq_iff_eq] at h
    unfold lexLe
    omega
  · exact lexLe_refl p

theorem lexLe_minPair_right (p q : ℕ × ℕ) : lexLe (minPair p q) q := by
  unfold minPair
  split
  · exact lexLe_refl q
  · rename_i h
    simp only [tupleLt, Bool.or_eq_true, Bool.and_eq_true, decide_eq_true_eq,
      beq_iff_eq] at h
    unfold lexLe
    omega

theorem foldl_minPair_mem :
    ∀ (ps : List (ℕ × ℕ)) (p : ℕ × ℕ),
      ps.foldl minPair p = p ∨ ps.foldl minPair p ∈ ps := by
  intro ps
  induction ps with
  | nil => intro p; left; rfl
  | cons q qs ih =>
    intro p
    simp only [List.foldl_cons]
    rcases ih (minPair p q) with h | h
    · rcases minPair_cases p q with hpq | hpq
      · left; rw [h, hpq]
      · right; rw [h, hpq]; exact List.mem_cons_self q qs
    · right; exact List.mem_cons_of_mem q h

theorem foldl_minPair_le :
    ∀ (ps : List (ℕ × ℕ)) (p q : ℕ × ℕ), (q = p ∨ q ∈ ps) →
      lexLe (ps.foldl minPair p) q := by
  intro ps
  induction ps with
  | nil =>
    rintro p q (rfl | h)
    · exact lexLe_refl q
    · cases h
  | cons r rs ih =>
    intro p q hq
    simp only [List.foldl_cons]
    rcases hq with rfl | hq'
    · exact lexLe_trans (ih (minPair q r) (minPair q r) (Or.inl rfl)) (lexLe_minPair_left q r)
    · rcases List.mem_cons.mp hq' with rfl | hm
      · exact lexLe_trans (ih (minPair p q) (minPair p q) (Or.inl rfl))
          (lexLe_minPair_right p q)
      · exact ih (minPair p r) q (Or.inr hm)

end Solver

/-! ## Claim theorems -/

/-- C1: the claim says `solve` never raises and surfaces every failure
as the sentinel grid.  The code violates this: on the all-zero puzzle
propagation stalls, the guess step runs `self.solve(next_state)` on a
dictionary, and `is_valid_puzzle` evaluates `next_state.shape`, which
raises `AttributeError` out of `solve`. -/
theorem C1_solve_raises_on_zeros :
    Solver.solve zerosGrid = .raise .attributeError := by decide

/-- C2: the claim says the guess step recursively runs full propagation
on an independent copy per candidate digit.  In the code the recursive
call is `self.solve(next_state)` with `next_state` a dictionary, which
raises `AttributeError` before any propagation of the copy happens, no
matter which digit is tried. -/
theorem C2_guess_recursion_raises :
    Solver.propagate (Solver.to_dictionary zerosGrid) = .exc .attributeError := by
  decide

/-- C3 counterexample: on `staleContraGrid` the first elimination pass
empties cell (0,8), yet the solved count does not change, so the loop
breaks before the contradiction check: `propagate` does not report
failure and instead continues to the guess step (where it raises). -/
theorem C3_counterexample_stalled_contradiction :
    Solver.anyEmpty (Solver.elimPass (Solver.to_dictionary staleContraGrid)) = true ∧
    Solver.propagate (Solver.to_dictionary staleContraGrid) ≠ .failure ∧
    (Solver.propagate (Solver.to_dictionary staleContraGrid)).excOf =
      some .attributeError := by
  decide

/-- C3 amended: a contradiction (empty candidate set) produced by a pass
is reported as failure only when that pass also changed the solved
count; if the solved count is unchanged the loop exits first and
`propagate` moves on to the guess step without reporting failure. -/
theorem C3_amended_contradiction_check :
    (∀ s : Solver.SState,
        Solver.solvedCount s ≠ Solver.solvedCount (Solver.elimPass s) →
        Solver.anyEmpty (Solver.elimPass s) = true →
        Solver.propagate s = .failure) ∧
    (∀ s : Solver.SState,
        Solver.solvedCount s = Solver.solvedCount (Solver.elimPass s) →
        Solver.anyEmpty (Solver.elimPass s) = true →
        (Solver.propagate s).isFailure = false) :=
  ⟨fun _ hne hae => Solver.propagate_contra_of_grow hne hae,
   fun _ heq hae => Solver.propagate_not_failure_of_stall heq hae⟩

/-- Witness for C3's amended claim at two concrete states: on
`growContraGrid` the pass both empties a cell and solves one, and
failure is reported; on `staleContraGrid` the count is unchanged and
failure is not reported. -/
theorem C3_amended_witness :
    Solver.propagate (Solver.to_dictionary growContraGrid) = .failure ∧
    (Solver.propagate (Solver.to_dictionary staleContraGrid)).isFailure = false :=
  ⟨C3_amended_contradiction_check.1 (Solver.to_dictionary growContraGrid)
      (by decide) (by decide),
   C3_amended_contradiction_check.2 (Solver.to_dictionary staleContraGrid)
      (by decide) (by decide)⟩

theorem to_numpy_array_snd_shape9 (d : List Solver.DictVal) :
    shape9 (Solver.to_numpy_array d).2 := by
  constructor
  · simp [Solver.to_numpy_array]
  · intro r hr
    rw [Solver.to_numpy_array] at hr
    dsimp only at hr
    rcases List.mem_map.mp hr with ⟨i, _, rfl⟩
    simp

/-- C4 counterexample: `badFull` is a fully filled grid with total sum
405 that is not a sudoku solution (row 0 holds two 4s), yet `solve`
returns it unchanged as a non-sentinel "solution". -/
theorem C4_counterexample_invalid_returned :
    Solver.solve badFull = .grid badFull ∧ badFull ≠ Solver.no_solution ∧
      ¬ isSudokuSolution badFull := by
  decide

/-- C4 amended: every non-sentinel grid returned by `solve` is 9x9 and
has entries summing to 405 (the weak built-in check); row, column and
box uniqueness is not guaranteed. -/
theorem C4_amended_nonsentinel_shape_sum (g a : Solver.Grid)
    (h : Solver.solve g = .grid a) (hne : a ≠ Solver.no_solution) :
    shape9 a ∧ gridTotal a = 405 := by
  unfold Solver.solve at h
  split at h
  · rw [Solver.SolveResult.grid.injEq] at h
    exact absurd h.symm hne
  · split at h
    · rw [Solver.SolveResult.grid.injEq] at h
      exact absurd h.symm hne
    · exact Solver.SolveResult.noConfusion h
    · rename_i s hs
      rw [show
          (let b := (Solver.to_numpy_array (List.map Solver.DictVal.vstr s)).2;
            if ¬Solver.is_valid_solution b = true then
              Solver.SolveResult.grid Solver.no_solution
            else Solver.SolveResult.grid b) =
          (if ¬Solver.is_valid_solution
                ((Solver.to_numpy_array (List.map Solver.DictVal.vstr s)).2) = true then
              Solver.SolveResult.grid Solver.no_solution
            else Solver.SolveResult.grid
              ((Solver.to_numpy_array (List.map Solver.DictVal.vstr s)).2))
          from rfl] at h
      split at h
      · rw [Solver.SolveResult.grid.injEq] at h
        exact absurd h.symm hne
      · rename_i hvalid
        rw [Solver.SolveResult.grid.injEq] at h
        subst h
        refine ⟨to_numpy_array_snd_shape9 _, ?_⟩
        rw [← is_valid_solution_iff_total (to_numpy_array_snd_shape9
          (s.map Solver.DictVal.vstr)).2]
        exact not_not.mp hvalid

/-- Witness for C4's amended claim: `solvedGrid` is returned
non-sentinel and indeed sums to 405. -/
theorem C4_amended_witness :
    Solver.solve solvedGrid = .grid solvedGrid ∧
    (shape9 solvedGrid ∧ gridTotal solvedGrid = 405) :=
  ⟨by decide,
   C4_amended_nonsentinel_shape_sum solvedGrid solvedGrid (by decide) (by decide)⟩

/-- C5: malformed input (wrong shape or an entry outside [0,9]) makes
`solve` return the all minus-one sentinel without solving. -/
theorem C5_invalid_input_sentinel (g : Solver.Grid)
    (h : ¬ shape9 g ∨ hasBadEntry g) :
    Solver.solve g = .grid Solver.no_solution := by
  have hv : Solver.is_valid_puzzle g = false := by
    cases hval : Solver.is_valid_puzzle g with
    | false => rfl
    | true =>
      exfalso
      unfold Solver.is_valid_puzzle at hval
      simp only [Bool.and_eq_true, List.all_eq_true, beq_iff_eq,
        decide_eq_true_eq] at hval
      rcases h with hs | hb
      · exact hs ⟨hval.1.1, fun r hr => hval.1.2 r hr⟩
      · rcases hb with ⟨r, hr, v, hv', hout⟩
        have := hval.2 r hr v hv'
        omega
  unfold Solver.solve
  rw [if_pos (by simp [hv])]

/-- Witness for C5 at a concrete malformed input. -/
theorem C5_witness :
    (¬ shape9 [[(10 : ℤ)]] ∨ hasBadEntry [[(10 : ℤ)]]) ∧
    Solver.solve [[(10 : ℤ)]] = .grid Solver.no_solution :=
  ⟨by decide, C5_invalid_input_sentinel [[(10 : ℤ)]] (by decide)⟩

/-- C6: on a 9x9 grid `is_valid_solution` is true exactly when the 81
entries sum to 405, and it performs no uniqueness verification: the
all-fives grid passes it while being no sudoku solution. -/
theorem C6_is_valid_solution_is_sum_check :
    (∀ g : Solver.Grid, shape9 g →
      (Solver.is_valid_solution g = true ↔ gridTotal g = 405)) ∧
    (Solver.is_valid_solution allFives = true ∧ ¬ isSudokuSolution allFives) := by
  refine ⟨fun g hg => is_valid_solution_iff_total hg.2, by decide, by decide⟩

/-- Witness for C6 at a concrete 9x9 grid. -/
theorem C6_witness :
    shape9 solvedGrid ∧
    (Solver.is_valid_solution solvedGrid = true ↔ gridTotal solvedGrid = 405) :=
  ⟨by decide, C6_is_valid_solution_is_sum_check.1 solvedGrid (by decide)⟩

/-- C7: the neighbour table maps each of the 81 cells to exactly the 20
other cells sharing its row, column or 3x3 box. -/
theorem C7_neighbour_table (c : ℕ) (hc : c < 81) :
    Solver.neighbours c = expectedNeighbours c ∧ (Solver.neighbours c).card = 20 := by
  revert hc
  revert c
  decide

/-- Witness for C7 at cell 0. -/
theorem C7_witness :
    Solver.neighbours 0 = expectedNeighbours 0 ∧ (Solver.neighbours 0).card = 20 :=
  C7_neighbour_table 0 (by decide)

/-- C8: an already fully solved valid grid is returned unchanged by
`solve`, and the fixpoint loop's elimination pass leaves its decoded
state untouched (zero eliminations). -/
theorem C8_solve_idempotent_on_solved (g : Solver.Grid) (h : isSudokuSolution g) :
    Solver.solve g = .grid g ∧
      Solver.elimPass (Solver.to_dictionary g) = Solver.to_dictionary g := by
  have hsing : ∀ k ∈ Solver.cellsL, (Solver.get (Solver.to_dictionary g) k).card = 1 := by
    intro k hk
    have hk81 : k < 81 := by simpa [Solver.cellsL] using hk
    rw [get_to_dictionary_of_sudoku h hk81]
    exact Finset.card_singleton _
  refine ⟨?_, Solver.elimPass_of_allSolved hsing⟩
  unfold Solver.solve
  rw [if_neg (by simp [is_valid_puzzle_of_sudoku h])]
  rw [Solver.propagate_of_allSolved hsing]
  dsimp only
  rw [to_numpy_array_snd_of_sudoku h]
  rw [if_neg (by simp [is_valid_solution_of_sudoku h])]

/-- Witness for C8 at a concrete solved grid. -/
theorem C8_witness :
    Solver.solve solvedGrid = .grid solvedGrid ∧
      Solver.elimPass (Solver.to_dictionary solvedGrid) =
        Solver.to_dictionary solvedGrid :=
  C8_solve_idempotent_on_solved solvedGrid (by decide)

/-- C9: the pair produced by the guess step's `min` names an unsolved
cell (more than one candidate) of minimal candidate-set size; among
equally small cells the one with the smallest row-major index is
chosen, so the selection is deterministic. -/
theorem C9_min_cell_selection (s : Solver.SState) (m c : ℕ)
    (h : Solver.minCellPair s = some (m, c)) :
    m = (Solver.get s c).card ∧ 1 < (Solver.get s c).card ∧ c < 81 ∧
    ∀ d, d < 81 → 1 < (Solver.get s d).card →
      ((Solver.get s c).card < (Solver.get s d).card ∨
        ((Solver.get s c).card = (Solver.get s d).card ∧ c ≤ d)) := by
  unfold Solver.minCellPair at h
  split at h
  · exact Option.noConfusion h
  · rename_i p ps heq
    rw [Option.some.injEq] at h
    have hmem : (m, c) ∈ p :: ps := by
      rcases Solver.foldl_minPair_mem ps p with h1 | h1
      · rw [← h, h1]
        exact List.mem_cons_self p ps
      · rw [← h]
        exact List.mem_cons_of_mem p h1
    rw [← heq] at hmem
    rcases List.mem_map.mp hmem with ⟨c', hc', hpair⟩
    rw [Prod.mk.injEq] at hpair
    obtain ⟨hm, hc⟩ := hpair
    subst hc
    have hcf := List.mem_filter.mp hc'
    have hc81 : c' < 81 := by simpa [Solver.cellsL] using hcf.1
    have hcard : 1 < (Solver.get s c').card := by simpa using hcf.2
    refine ⟨hm.symm, hcard, hc81, ?_⟩
    intro d hd hdcard
    have hdf : d ∈ Solver.cellsL.filter (fun x => 1 < (Solver.get s x).card) :=
      List.mem_filter.mpr ⟨by simpa [Solver.cellsL] using hd, by simpa using hdcard⟩
    have hdmem : ((Solver.get s d).card, d) ∈
        (Solver.cellsL.filter (fun x => 1 < (Solver.get s x).card)).map
          (fun x => ((Solver.get s x).card, x)) :=
      List.mem_map_of_mem _ hdf
    rw [heq] at hdmem
    have hle : lexLe (m, c') ((Solver.get s d).card, d) := by
      rw [← h]
      rcases List.mem_cons.mp hdmem with h2 | h2
      · exact Solver.foldl_minPair_le ps p _ (Or.inl h2)
      · exact Solver.foldl_minPair_le ps p _ (Or.inr h2)
    unfold lexLe at hle
    dsimp only at hle
    rw [← hm] at hle
    exact hle

/-- Witness for C9: on the all-empty dictionary every cell has nine
candidates and the fold selects cell 0 with size 9. -/
theorem C9_witness :
    Solver.minCellPair (Solver.to_dictionary zerosGrid) = some (9, 0) ∧
    1 < (Solver.get (Solver.to_dictionary zerosGrid) 0).card :=
  ⟨by decide,
   (C9_min_cell_selection (Solver.to_dictionary zerosGrid) 9 0 (by decide)).2.1⟩

/-- C10: `to_numpy_array` converts the dictionary's values in place:
after the call the dictionary holds the integer conversion of every
value, so a dictionary that held a string value does not remain
unchanged. -/
theorem C10_to_numpy_array_mutates (d : List Solver.DictVal) (k : ℕ)
    (hk : k < 81) (hlen : d.length = 81) :
    (Solver.to_numpy_array d).1.getD k (.vint 0) =
      .vint ((d.getD k (.vint 0)).toIntVal) ∧
    (∀ t, d.getD k (.vint 0) = .vstr t → (Solver.to_numpy_array d).1 ≠ d) := by
  refine ⟨Solver.to_numpy_array_fst_getD d hlen hk, ?_⟩
  intro t ht heq
  have h1 := Solver.to_numpy_array_fst_getD d hlen hk
  rw [heq, ht] at h1
  exact Solver.DictVal.noConfusion h1

/-- Witness for C10 at a dictionary of candidate strings. -/
theorem C10_witness :
    (Solver.to_numpy_array strDict).1.getD 0 (.vint 0) =
      .vint ((strDict.getD 0 (.vint 0)).toIntVal) ∧
    (Solver.to_numpy_array strDict).1 ≠ strDict :=
  ⟨(C10_to_numpy_array_mutates strDict 0 (by decide) (by decide)).1,
   (C10_to_numpy_array_mutates strDict 0 (by decide) (by decide)).2 Solver.digits
     (by decide)⟩
